import Mathlib

/-!
Shallow embedding of `src/dqueryinterface.h` (davidcanadas/dqueryinterface).

The repository provides:
* `DQueryInterface` — a capability-query protocol (`QueryInterfaceByTypeId`
  returning a possibly-null pointer, with typed / runtime / COM-like wrappers);
* `DObjectRegistry` — a registry with a materialized object vector
  `m_objects`, two pending queues `m_objectsToAdd` / `m_objectsToRemove`,
  and an `unsigned int` generation counter `m_generationId` (initialized
  to `0`, incremented modulo `2^32` once per structurally-changing drain);
* `DObjectRegistry::DInterfaceCollection` — a per-capability cached view
  whose cached generation starts at `UINT_MAX`.

Objects are `std::shared_ptr<DQueryInterface>` values compared by pointer
identity; we model the handles as an abstract type `α` with decidable
equality.  Machine `unsigned int` arithmetic is modelled as `Nat` with
explicit reduction modulo `2^32`.
-/

/-- `DQueryInterface::EPredicateResult` (dqueryinterface.h line 37). -/
inductive EPredicateResult : Type where
  | Ok : EPredicateResult
  | CancellationRequested : EPredicateResult
deriving DecidableEq, Repr

set_option linter.unusedSectionVars false

/-- The number of values of a 32-bit `unsigned int`; `m_generationId`
arithmetic is performed modulo this constant. -/
def UINT_SIZE : Nat := 2 ^ 32

/-- `UINT_MAX`, the initial value of a collection's `m_generationId`
(dqueryinterface.h line 159). -/
def UINT_MAX : Nat := 2 ^ 32 - 1

variable {α : Type} {β : Type} [DecidableEq α]

/-- Specification helper (not itself in the source): remove the first
occurrence of `x` from a list, keeping the order of the rest.  Used only
to characterize `removeSwap` up to permutation. -/
def eraseFirst : List α → α → List α
  | [], _ => []
  | y :: ys, x => if y = x then ys else y :: eraseFirst ys x

/-- `m_objects.back()` with an explicit default for the (unreachable)
empty case: the last element of the vector (dqueryinterface.h line 103). -/
def backD (d : α) : List α → α
  | [] => d
  | [y] => y
  | _ :: y :: ys => backD d (y :: ys)

/-- `*foundObject = b` where `foundObject` is the result of `std::find`:
overwrite the first occurrence of `x` with `b` (dqueryinterface.h
lines 100–103). -/
def replaceFirst : List α → α → α → List α
  | [], _, _ => []
  | y :: ys, x, b => if y = x then b :: ys else y :: replaceFirst ys x b

/-- The removal step of `DObjectRegistry::ForEach` for one pending entry
(dqueryinterface.h lines 100–106): `std::find` the first occurrence of
`x`; when found, overwrite it with `m_objects.back()` and `pop_back()`
(swap-with-last, order not kept); when absent do nothing. -/
def removeSwap (l : List α) (x : α) : List α :=
  if x ∈ l then (replaceFirst l x (backD x l)).dropLast else l

/-- `DObjectRegistry` state (dqueryinterface.h lines 168–170): the
materialized vector `m_objects`, the pending queues `m_objectsToAdd`
and `m_objectsToRemove`, and the generation counter `m_generationId`
(an `unsigned int`, initially `0`). -/
structure DObjectRegistry (α : Type) where
  m_objects : List α
  m_objectsToAdd : List α
  m_objectsToRemove : List α
  m_generationId : Nat
deriving DecidableEq, Repr

/-- A freshly constructed `DObjectRegistry`: all vectors empty,
`m_generationId = 0`. -/
def DObjectRegistry.new : DObjectRegistry α :=
  { m_objects := [], m_objectsToAdd := [], m_objectsToRemove := [],
    m_generationId := 0 }

/-- `DObjectRegistry::RequestAddObject` (dqueryinterface.h lines 63–68):
push the (non-null, enforced by `assert`) handle onto the add queue. -/
def DObjectRegistry.RequestAddObject (s : DObjectRegistry α) (x : α) :
    DObjectRegistry α :=
  { s with m_objectsToAdd := s.m_objectsToAdd ++ [x] }

/-- `DObjectRegistry::RequestRemoveObject` (dqueryinterface.h
lines 70–77): when an optional removal predicate is supplied and answers
`CancellationRequested`, return without touching any queue; otherwise
push the handle onto the remove queue. -/
def DObjectRegistry.RequestRemoveObject (s : DObjectRegistry α) (x : α)
    (veto : Option (α → EPredicateResult)) : DObjectRegistry α :=
  match veto with
  | some p =>
    if p x = EPredicateResult.CancellationRequested then s
    else { s with m_objectsToRemove := s.m_objectsToRemove ++ [x] }
  | none => { s with m_objectsToRemove := s.m_objectsToRemove ++ [x] }

/-- One step of the pending-addition loop (dqueryinterface.h
lines 88–93): linear-scan `m_objects`, skip if already present,
otherwise append and record the structural change in the `changed`
flag carried in the second component. -/
def drainAddsStep (acc : List α × Bool) (x : α) : List α × Bool :=
  if x ∈ acc.1 then acc else (acc.1 ++ [x], true)

/-- One step of the pending-removal loop (dqueryinterface.h
lines 98–107): `std::find` the handle in `m_objects`; when present,
remove it by swap-with-last and record the structural change. -/
def drainRemovesStep (acc : List α × Bool) (x : α) : List α × Bool :=
  if x ∈ acc.1 then (removeSwap acc.1 x, true) else acc

/-- The two queue-draining loops of `DObjectRegistry::ForEach`
(dqueryinterface.h lines 85–109): process all pending additions first,
then all pending removals, threading the `changed` flag (initially
`false`) through both loops. -/
def drainFold (s : DObjectRegistry α) : List α × Bool :=
  s.m_objectsToRemove.foldl drainRemovesStep
    (s.m_objectsToAdd.foldl drainAddsStep (s.m_objects, false))

/-- `changed` as computed across both draining loops. -/
def drainChanged (s : DObjectRegistry α) : Bool := (drainFold s).2

/-- The mutation phase of `DObjectRegistry::ForEach` (dqueryinterface.h
lines 83–112): when either queue is non-empty, drain additions then
removals, clear both queues, and increment `m_generationId` (an
`unsigned int`, hence modulo `2^32`) exactly once when `changed`. -/
def DObjectRegistry.drain (s : DObjectRegistry α) : DObjectRegistry α :=
  if s.m_objectsToAdd.length ≠ 0 ∨ s.m_objectsToRemove.length ≠ 0 then
    { m_objects := (drainFold s).1, m_objectsToAdd := [],
      m_objectsToRemove := [],
      m_generationId :=
        if (drainFold s).2 then (s.m_generationId + 1) % UINT_SIZE
        else s.m_generationId }
  else s

/-- The iteration phase of the registry's `ForEach` and of both view
`ForEach` overloads (dqueryinterface.h lines 113–115 and 140–142): call
the predicate on each element in order, stopping right after the first
`CancellationRequested` answer.  Returns the list of visited elements. -/
def visited (f : α → EPredicateResult) : List α → List α
  | [] => []
  | x :: xs =>
    if f x = EPredicateResult.CancellationRequested then [x]
    else x :: visited f xs

/-- `DObjectRegistry::ForEach` (dqueryinterface.h lines 79–116): drain
the pending queues, then iterate `m_objects` with the caller's
predicate.  Returns the post-call registry state and the list of
objects the predicate was invoked on. -/
def DObjectRegistry.ForEach (s : DObjectRegistry α)
    (f : α → EPredicateResult) : DObjectRegistry α × List α :=
  (s.drain, visited f s.drain.m_objects)

/-- The collecting lambda of `DInterfaceCollection::ForEach`
(dqueryinterface.h lines 132–137): the registry enumeration pushes each
visited object satisfying `HasInterface<TINTERFACE>()` (modelled by the
boolean test `hasT`) onto the cleared cache and always answers `Ok`. -/
def collectInterfaces (hasT : α → Bool) (l : List α) : List α :=
  l.foldl (fun acc o => if hasT o then acc ++ [o] else acc) []

/-- `DInterfaceCollection` state (dqueryinterface.h lines 157–159): the
cached object vector and the cached generation, which the constructor
leaves at `UINT_MAX`. -/
structure DInterfaceCollection (α : Type) where
  m_objects : List α
  m_generationId : Nat
deriving DecidableEq, Repr

/-- `DObjectRegistry::CreateInterfaceCollection` / the private
collection constructor (dqueryinterface.h lines 62 and 159/161): empty
cache, cached generation `UINT_MAX`. -/
def DObjectRegistry.CreateInterfaceCollection :
    DInterfaceCollection α :=
  { m_objects := [], m_generationId := UINT_MAX }

/-- `DInterfaceCollection::ForEach` on object handles (dqueryinterface.h
lines 125–143): when the cached generation differs from the registry's
current one, clear the cache, run the registry's `ForEach` with the
collecting lambda (which drains the registry), and store the registry
generation observed after that call; then iterate the cache with the
caller's predicate.  Returns the post-call registry state, the
post-call collection state, and the visited cache elements. -/
def DInterfaceCollection.ForEach (hasT : α → Bool)
    (s : DObjectRegistry α) (v : DInterfaceCollection α)
    (f : α → EPredicateResult) :
    DObjectRegistry α × DInterfaceCollection α × List α :=
  if v.m_generationId ≠ s.m_generationId then
    let s2 := s.drain
    let cache := collectInterfaces hasT s2.m_objects
    (s2, { m_objects := cache, m_generationId := s2.m_generationId },
      visited f cache)
  else
    (s, v, visited f v.m_objects)

/-- `DInterfaceCollection::ForEach` on capability references
(dqueryinterface.h lines 145–152): wrap the caller's predicate with the
(assumed non-null, unchecked) `QueryInterface<TINTERFACE>()` resolution
`getT` and delegate to the object-handle overload. -/
def DInterfaceCollection.ForEachInterface (hasT : α → Bool)
    (getT : α → β) (s : DObjectRegistry α) (v : DInterfaceCollection α)
    (g : β → EPredicateResult) :
    DObjectRegistry α × DInterfaceCollection α × List α :=
  DInterfaceCollection.ForEach hasT s v (fun o => g (getT o))

/-- Specification helper: the position of the first element of `l` on
which `f` answers `CancellationRequested`, if any. -/
def cancelIdx (f : α → EPredicateResult) : List α → Option Nat
  | [] => none
  | x :: xs =>
    if f x = EPredicateResult.CancellationRequested then some 0
    else (cancelIdx f xs).map (· + 1)

/-- A registry operation issued by some client thread: an add request,
a remove request (with optional veto predicate), or a registry
`ForEach` (whose state effect is the drain; the caller's predicate
cannot alter the registry state). -/
inductive RegistryOp (α : Type) where
  | add (x : α) : RegistryOp α
  | remove (x : α) (veto : Option (α → EPredicateResult)) : RegistryOp α
  | each : RegistryOp α

/-- Apply one operation to a registry state. -/
def applyOp (s : DObjectRegistry α) : RegistryOp α → DObjectRegistry α
  | RegistryOp.add x => s.RequestAddObject x
  | RegistryOp.remove x veto => s.RequestRemoveObject x veto
  | RegistryOp.each => s.drain

/-- The registry state after a sequence of operations performed on a
freshly constructed registry. -/
def runOps (ops : List (RegistryOp α)) : DObjectRegistry α :=
  ops.foldl applyOp DObjectRegistry.new

/-- A capability identifier: models `std::type_info` / `typeid(T)`, a
process-wide stable tag compared by equality. -/
abbrev TypeId := Nat

/-- `DQueryInterface` (dqueryinterface.h lines 35–53): the single pure
virtual `QueryInterfaceByTypeId` resolves a capability identifier to a
`const void*`; `none` models `nullptr` (capability absent). -/
structure DQueryInterface where
  QueryInterfaceByTypeId : TypeId → Option Nat

/-- `QueryInterface<T>()`, template access (dqueryinterface.h line 41):
call `QueryInterfaceByTypeId(typeid(T))`; the `reinterpret_cast` is the
identity on the underlying pointer value. -/
def DQueryInterface.QueryInterfaceTemplate (o : DQueryInterface)
    (t : TypeId) : Option Nat :=
  o.QueryInterfaceByTypeId t

/-- `HasInterface<T>()`, template access (dqueryinterface.h line 43):
`QueryInterface<T>() != nullptr`. -/
def DQueryInterface.HasInterfaceTemplate (o : DQueryInterface)
    (t : TypeId) : Bool :=
  (o.QueryInterfaceTemplate t).isSome

/-- `QueryInterface(typeId, &out)`, COM-like access (dqueryinterface.h
line 46): `*out_interface` receives the resolved pointer, and the
boolean conversion of the just-written pointer is returned.  The first
component is the value written through the output parameter, the second
the returned flag. -/
def DQueryInterface.QueryInterfaceCom (o : DQueryInterface)
    (t : TypeId) : Option Nat × Bool :=
  (o.QueryInterfaceByTypeId t, (o.QueryInterfaceByTypeId t).isSome)

/-- `QueryInterface(typeId)`, runtime access (dqueryinterface.h
line 50). -/
def DQueryInterface.QueryInterfaceRuntime (o : DQueryInterface)
    (t : TypeId) : Option Nat :=
  o.QueryInterfaceByTypeId t

/-- `HasInterface(typeId)`, runtime access (dqueryinterface.h line 52):
`QueryInterfaceByTypeId(typeId) != nullptr`. -/
def DQueryInterface.HasInterfaceRuntime (o : DQueryInterface)
    (t : TypeId) : Bool :=
  (o.QueryInterfaceByTypeId t).isSome

/-- Four client operations that, starting from a state whose
materialized set is exactly `[0]`, remove object `0`, drain, re-add it
and drain again: two structural drains, so the generation advances by
two. -/
def rampBlock : List (RegistryOp Nat) :=
  [RegistryOp.remove 0 none, RegistryOp.each,
    RegistryOp.add 0, RegistryOp.each]

/-- Add object `0`, drain, then run `k` copies of `rampBlock`: a
concrete operation sequence driving the generation counter to
`2 * k + 1`. -/
def rampOps (k : Nat) : List (RegistryOp Nat) :=
  [RegistryOp.add 0, RegistryOp.each] ++
    (List.replicate k rampBlock).flatten

/-- `rampOps` driven to generation `UINT_MAX`, followed by one more
structural drain: the generation counter wraps around to `0`. -/
def wrapOps : List (RegistryOp Nat) :=
  rampOps (2 ^ 31 - 1) ++ [RegistryOp.remove 0 none, RegistryOp.each]


theorem eraseFirst_subset (l : List α) (x : α) : eraseFirst l x ⊆ l := by
  induction l with
  | nil => simp [eraseFirst]
  | cons y ys ih =>
    by_cases h : y = x
    · rw [eraseFirst, if_pos h]
      exact fun z hz => List.mem_cons_of_mem y hz
    · rw [eraseFirst, if_neg h]
      exact List.cons_subset_cons y ih

theorem mem_eraseFirst_of_ne {y x : α} (l : List α) (hne : y ≠ x) :
    y ∈ eraseFirst l x ↔ y ∈ l := by
  induction l with
  | nil => simp [eraseFirst]
  | cons z zs ih =>
    by_cases h : z = x
    · subst h
      simp [eraseFirst, List.mem_cons]
      intro he
      exact absurd he hne
    · simp [eraseFirst, if_neg h, List.mem_cons, ih]

theorem nodup_eraseFirst {l : List α} (x : α) (hl : l.Nodup) :
    (eraseFirst l x).Nodup := by
  induction l with
  | nil => simp [eraseFirst]
  | cons y ys ih =>
    rw [List.nodup_cons] at hl
    by_cases h : y = x
    · simpa [eraseFirst, h] using hl.2
    · rw [eraseFirst, if_neg h, List.nodup_cons]
      refine ⟨fun hmem => hl.1 (eraseFirst_subset ys x hmem), ih hl.2⟩

theorem not_mem_eraseFirst {l : List α} {x : α} (hl : l.Nodup) :
    x ∉ eraseFirst l x := by
  induction l with
  | nil => simp [eraseFirst]
  | cons y ys ih =>
    rw [List.nodup_cons] at hl
    by_cases h : y = x
    · subst h
      simpa [eraseFirst] using hl.1
    · rw [eraseFirst, if_neg h, List.mem_cons]
      push_neg
      exact ⟨fun he => h he.symm, ih hl.2⟩

theorem eraseFirst_of_not_mem {l : List α} {x : α} (hx : x ∉ l) :
    eraseFirst l x = l := by
  induction l with
  | nil => rfl
  | cons y ys ih =>
    rw [List.mem_cons, not_or] at hx
    rw [eraseFirst, if_neg (fun h => hx.1 h.symm), ih hx.2]

theorem length_eraseFirst_of_mem {l : List α} {x : α} (hx : x ∈ l) :
    (eraseFirst l x).length + 1 = l.length := by
  induction l with
  | nil => cases hx
  | cons y ys ih =>
    by_cases h : y = x
    · simp [eraseFirst, h]
    · rw [List.mem_cons] at hx
      rcases hx with hx | hx
      · exact absurd hx.symm h
      · simp only [eraseFirst, if_neg h, List.length_cons]
        rw [ih hx]

theorem dropLast_cons_cons (a b : α) (l : List α) :
    (a :: b :: l).dropLast = a :: (b :: l).dropLast := rfl

theorem dropLast_append_backD {l : List α} (d : α) (hl : l ≠ []) :
    l.dropLast ++ [backD d l] = l := by
  induction l with
  | nil => exact absurd rfl hl
  | cons y ys ih =>
    cases ys with
    | nil => rfl
    | cons z zs =>
      rw [dropLast_cons_cons, backD, List.cons_append, ih (by simp)]

theorem backD_mem {l : List α} (d : α) (hl : l ≠ []) : backD d l ∈ l := by
  have h1 : backD d l ∈ l.dropLast ++ [backD d l] :=
    List.mem_append_right _ (List.mem_singleton_self _)
  rwa [dropLast_append_backD d hl] at h1

theorem replaceFirst_cons_ne {y x : α} (b : α) (ys : List α) (h : y ≠ x) :
    replaceFirst (y :: ys) x b = y :: replaceFirst ys x b := by
  rw [replaceFirst, if_neg h]

theorem replaceFirst_ne_nil {l : List α} {x b : α} (hl : l ≠ []) :
    replaceFirst l x b ≠ [] := by
  cases l with
  | nil => exact absurd rfl hl
  | cons y ys =>
    by_cases h : y = x
    · simp [replaceFirst, h]
    · simp [replaceFirst, if_neg h]

/-- When `x` occurs strictly inside the list (not only in head position),
`removeSwap` commutes with `cons`. -/
theorem removeSwap_cons_of_ne {y x : α} {ys : List α} (hne : y ≠ x)
    (hmem : x ∈ ys) : removeSwap (y :: ys) x = y :: removeSwap ys x := by
  have hys : ys ≠ [] := by
    intro h; rw [h] at hmem; cases hmem
  have hmem' : x ∈ y :: ys := List.mem_cons_of_mem y hmem
  have hback : backD x (y :: ys) = backD x ys := by
    cases ys with
    | nil => exact absurd rfl hys
    | cons z zs => rfl
  rw [removeSwap, if_pos hmem', removeSwap, if_pos hmem, hback,
    replaceFirst_cons_ne _ _ hne]
  cases hrep : replaceFirst ys x (backD x ys) with
  | nil => exact absurd hrep (replaceFirst_ne_nil hys)
  | cons w ws => rw [List.dropLast_cons₂]

/-- The central characterization: swap-with-last removal is, up to
permutation, removal of the first occurrence. -/
theorem removeSwap_perm (l : List α) (x : α) :
    List.Perm (removeSwap l x) (eraseFirst l x) := by
  induction l with
  | nil =>
    have h1 : removeSwap ([] : List α) x = [] := by simp [removeSwap]
    rw [h1, eraseFirst]
  | cons y ys ih =>
    by_cases h : y = x
    · subst h
      have hmem : y ∈ y :: ys := List.mem_cons_self y ys
      rw [removeSwap, if_pos hmem, replaceFirst, if_pos rfl, eraseFirst,
        if_pos rfl]
      cases ys with
      | nil => exact List.Perm.nil
      | cons z zs =>
        have hzz : (z :: zs) ≠ [] := by simp
        have hback : backD y (y :: z :: zs) = backD y (z :: zs) := rfl
        rw [hback, List.dropLast_cons₂]
        have h1 : List.Perm (backD y (z :: zs) :: (z :: zs).dropLast)
            ((z :: zs).dropLast ++ [backD y (z :: zs)]) :=
          (List.perm_append_singleton _ _).symm
        rwa [dropLast_append_backD y hzz] at h1
    · by_cases hmem : x ∈ ys
      · rw [removeSwap_cons_of_ne (fun he => h he) hmem, eraseFirst,
          if_neg h]
        exact ih.cons y
      · have hnm : x ∉ y :: ys := by
          rw [List.mem_cons]
          push_neg
          exact ⟨fun he => h he.symm, hmem⟩
        rw [removeSwap, if_neg hnm, eraseFirst, if_neg h,
          eraseFirst_of_not_mem hmem]

theorem removeSwap_subset (l : List α) (x : α) : removeSwap l x ⊆ l :=
  fun _ hy =>
    eraseFirst_subset l x ((removeSwap_perm l x).mem_iff.mp hy)

theorem nodup_removeSwap {l : List α} (x : α) (hl : l.Nodup) :
    (removeSwap l x).Nodup :=
  ((removeSwap_perm l x).nodup_iff).mpr (nodup_eraseFirst x hl)

theorem not_mem_removeSwap {l : List α} {x : α} (hl : l.Nodup) :
    x ∉ removeSwap l x :=
  fun hx => not_mem_eraseFirst hl ((removeSwap_perm l x).mem_iff.mp hx)

theorem mem_removeSwap_of_ne {l : List α} {y x : α} (hne : y ≠ x)
    (hy : y ∈ l) : y ∈ removeSwap l x :=
  (removeSwap_perm l x).mem_iff.mpr ((mem_eraseFirst_of_ne l hne).mpr hy)

/-- Drain always yields the canonical form: both queues cleared, the
folded object list, and the conditional generation bump.  (When both
queues are empty the guarded branch is skipped by the code, but the
folds are then no-ops, so the same normal form holds.) -/
theorem drain_eq (s : DObjectRegistry α) :
    s.drain =
      { m_objects := (drainFold s).1, m_objectsToAdd := [],
        m_objectsToRemove := [],
        m_generationId :=
          if (drainFold s).2 then (s.m_generationId + 1) % UINT_SIZE
          else s.m_generationId } := by
  rw [DObjectRegistry.drain]
  by_cases h : s.m_objectsToAdd.length ≠ 0 ∨ s.m_objectsToRemove.length ≠ 0
  · rw [if_pos h]
  · rw [if_neg h]
    push_neg at h
    have ha : s.m_objectsToAdd = [] := List.length_eq_zero.mp h.1
    have hr : s.m_objectsToRemove = [] := List.length_eq_zero.mp h.2
    have hf : drainFold s = (s.m_objects, false) := by
      rw [drainFold, ha, hr]
      rfl
    cases s with
    | mk o a r g => simp_all

theorem runOps_append (l1 l2 : List (RegistryOp α)) :
    runOps (l1 ++ l2) = l2.foldl applyOp (runOps l1) := by
  rw [runOps, runOps, List.foldl_append]

theorem addsFold_mem_of_mem_acc (pend : List α) (acc : List α × Bool)
    {x : α} (hx : x ∈ acc.1) : x ∈ (pend.foldl drainAddsStep acc).1 := by
  induction pend generalizing acc with
  | nil => exact hx
  | cons y ys ih =>
    rw [List.foldl_cons]
    apply ih
    rw [drainAddsStep]
    by_cases h : y ∈ acc.1
    · rwa [if_pos h]
    · rw [if_neg h]
      exact List.mem_append_left _ hx

theorem addsFold_mem_of_mem_pend (pend : List α) (acc : List α × Bool)
    {x : α} (hx : x ∈ pend) : x ∈ (pend.foldl drainAddsStep acc).1 := by
  induction pend generalizing acc with
  | nil => cases hx
  | cons y ys ih =>
    rw [List.foldl_cons]
    rcases List.mem_cons.mp hx with hx | hx
    · subst hx
      apply addsFold_mem_of_mem_acc
      rw [drainAddsStep]
      by_cases h : x ∈ acc.1
      · rwa [if_pos h]
      · rw [if_neg h]
        exact List.mem_append_right _ (List.mem_singleton_self _)
    · exact ih _ hx

theorem addsFold_nodup (pend : List α) (acc : List α × Bool)
    (h : acc.1.Nodup) : (pend.foldl drainAddsStep acc).1.Nodup := by
  induction pend generalizing acc with
  | nil => exact h
  | cons y ys ih =>
    rw [List.foldl_cons]
    apply ih
    rw [drainAddsStep]
    by_cases hy : y ∈ acc.1
    · rwa [if_pos hy]
    · rw [if_neg hy]
      simpa [List.nodup_append] using ⟨h, hy⟩

theorem addsFold_flag_true (pend : List α) (l : List α) :
    (pend.foldl drainAddsStep (l, true)).2 = true := by
  induction pend generalizing l with
  | nil => rfl
  | cons y ys ih =>
    rw [List.foldl_cons, drainAddsStep]
    by_cases hy : y ∈ l
    · rw [if_pos hy]
      exact ih l
    · rw [if_neg hy]
      exact ih (l ++ [y])

theorem removesFold_flag_true (rm : List α) (l : List α) :
    (rm.foldl drainRemovesStep (l, true)).2 = true := by
  induction rm generalizing l with
  | nil => rfl
  | cons y ys ih =>
    rw [List.foldl_cons, drainRemovesStep]
    by_cases hy : y ∈ l
    · rw [if_pos hy]
      exact ih (removeSwap l y)
    · rw [if_neg hy]
      exact ih l

theorem addsFold_of_flag_false {pend : List α} {acc : List α × Bool}
    (h : (pend.foldl drainAddsStep acc).2 = false) :
    (pend.foldl drainAddsStep acc).1 = acc.1 ∧ acc.2 = false := by
  induction pend generalizing acc with
  | nil => exact ⟨rfl, h⟩
  | cons y ys ih =>
    rw [List.foldl_cons] at h ⊢
    by_cases hy : y ∈ acc.1
    · rw [drainAddsStep, if_pos hy] at h ⊢
      exact ih h
    · rw [drainAddsStep, if_neg hy] at h
      rw [show ((acc.1 ++ [y], true) : List α × Bool) =
        (acc.1 ++ [y], true) from rfl] at h
      have := addsFold_flag_true ys (acc.1 ++ [y])
      rw [h] at this
      cases this

theorem removesFold_of_flag_false {rm : List α} {acc : List α × Bool}
    (h : (rm.foldl drainRemovesStep acc).2 = false) :
    (rm.foldl drainRemovesStep acc).1 = acc.1 ∧ acc.2 = false := by
  induction rm generalizing acc with
  | nil => exact ⟨rfl, h⟩
  | cons y ys ih =>
    rw [List.foldl_cons] at h ⊢
    by_cases hy : y ∈ acc.1
    · rw [drainRemovesStep, if_pos hy] at h
      have := removesFold_flag_true ys (removeSwap acc.1 y)
      rw [h] at this
      cases this
    · rw [drainRemovesStep, if_neg hy] at h ⊢
      exact ih h

theorem removesFold_subset (rm : List α) (acc : List α × Bool) :
    (rm.foldl drainRemovesStep acc).1 ⊆ acc.1 := by
  induction rm generalizing acc with
  | nil => exact fun _ h => h
  | cons y ys ih =>
    rw [List.foldl_cons]
    intro z hz
    rw [drainRemovesStep] at hz
    by_cases hy : y ∈ acc.1
    · rw [if_pos hy] at hz
      exact removeSwap_subset acc.1 y (ih _ hz)
    · rw [if_neg hy] at hz
      exact ih _ hz

theorem removesFold_nodup (rm : List α) (acc : List α × Bool)
    (h : acc.1.Nodup) : (rm.foldl drainRemovesStep acc).1.Nodup := by
  induction rm generalizing acc with
  | nil => exact h
  | cons y ys ih =>
    rw [List.foldl_cons, drainRemovesStep]
    by_cases hy : y ∈ acc.1
    · rw [if_pos hy]
      exact ih _ (nodup_removeSwap y h)
    · rw [if_neg hy]
      exact ih _ h

theorem removesFold_not_mem (rm : List α) (acc : List α × Bool) {x : α}
    (hnd : acc.1.Nodup) (hx : x ∈ rm) :
    x ∉ (rm.foldl drainRemovesStep acc).1 := by
  induction rm generalizing acc with
  | nil => cases hx
  | cons y ys ih =>
    rw [List.foldl_cons]
    by_cases hxy : x = y
    · subst hxy
      have hstep : x ∉ (drainRemovesStep acc x).1 := by
        rw [drainRemovesStep]
        by_cases hm : x ∈ acc.1
        · rw [if_pos hm]
          exact not_mem_removeSwap hnd
        · rwa [if_neg hm]
      exact fun hmem => hstep (removesFold_subset ys _ hmem)
    · have hys : x ∈ ys := by
        rcases List.mem_cons.mp hx with h | h
        · exact absurd h hxy
        · exact h
      have hnd' : (drainRemovesStep acc y).1.Nodup := by
        rw [drainRemovesStep]
        by_cases hm : y ∈ acc.1
        · rw [if_pos hm]
          exact nodup_removeSwap y hnd
        · rwa [if_neg hm]
      exact ih _ hnd' hys

theorem removesFold_mem (rm : List α) (acc : List α × Bool) {x : α}
    (hx : x ∈ acc.1) (hnr : x ∉ rm) :
    x ∈ (rm.foldl drainRemovesStep acc).1 := by
  induction rm generalizing acc with
  | nil => exact hx
  | cons y ys ih =>
    rw [List.mem_cons, not_or] at hnr
    rw [List.foldl_cons]
    have hstep : x ∈ (drainRemovesStep acc y).1 := by
      rw [drainRemovesStep]
      by_cases hm : y ∈ acc.1
      · rw [if_pos hm]
        exact mem_removeSwap_of_ne hnr.1 hx
      · rwa [if_neg hm]
    exact ih _ hstep hnr.2

theorem drain_objects (s : DObjectRegistry α) :
    s.drain.m_objects = (drainFold s).1 := by
  rw [drain_eq]

theorem drain_toAdd (s : DObjectRegistry α) :
    s.drain.m_objectsToAdd = [] := by
  rw [drain_eq]

theorem drain_toRemove (s : DObjectRegistry α) :
    s.drain.m_objectsToRemove = [] := by
  rw [drain_eq]

theorem drain_generation (s : DObjectRegistry α) :
    s.drain.m_generationId =
      if drainChanged s then (s.m_generationId + 1) % UINT_SIZE
      else s.m_generationId := by
  rw [drain_eq, drainChanged]

theorem nodup_drain (s : DObjectRegistry α) (h : s.m_objects.Nodup) :
    s.drain.m_objects.Nodup := by
  rw [drain_objects, drainFold]
  exact removesFold_nodup _ _ (addsFold_nodup _ _ h)

theorem mem_drain_of_mem_objects {s : DObjectRegistry α} {x : α}
    (hx : x ∈ s.m_objects) (hnr : x ∉ s.m_objectsToRemove) :
    x ∈ s.drain.m_objects := by
  rw [drain_objects, drainFold]
  exact removesFold_mem _ _ (addsFold_mem_of_mem_acc _ _ hx) hnr

theorem mem_drain_of_mem_toAdd {s : DObjectRegistry α} {x : α}
    (hx : x ∈ s.m_objectsToAdd) (hnr : x ∉ s.m_objectsToRemove) :
    x ∈ s.drain.m_objects := by
  rw [drain_objects, drainFold]
  exact removesFold_mem _ _ (addsFold_mem_of_mem_pend _ _ hx) hnr

theorem not_mem_drain {s : DObjectRegistry α} {x : α}
    (hnd : s.m_objects.Nodup) (hx : x ∈ s.m_objectsToRemove) :
    x ∉ s.drain.m_objects := by
  rw [drain_objects, drainFold]
  exact removesFold_not_mem _ _ (addsFold_nodup _ _ hnd) hx

theorem nodup_applyOp (s : DObjectRegistry α) (op : RegistryOp α)
    (h : s.m_objects.Nodup) : (applyOp s op).m_objects.Nodup := by
  cases op with
  | add x => exact h
  | remove x veto =>
    cases veto with
    | some p =>
      rw [applyOp, DObjectRegistry.RequestRemoveObject]
      by_cases hc : p x = EPredicateResult.CancellationRequested
      · rwa [if_pos hc]
      · rwa [if_neg hc]
    | none => exact h
  | each => exact nodup_drain s h

/-- Invariant: every reachable registry state has a duplicate-free
materialized set. -/
theorem nodup_runOps (ops : List (RegistryOp α)) :
    (runOps ops).m_objects.Nodup := by
  induction ops using List.reverseRecOn with
  | nil => exact List.nodup_nil
  | append_singleton l op ih =>
    rw [runOps_append, List.foldl_cons, List.foldl_nil]
    exact nodup_applyOp _ _ ih

theorem collectInterfaces_eq_filter (hasT : α → Bool) (l : List α) :
    collectInterfaces hasT l = l.filter hasT := by
  have key : ∀ (l acc : List α),
      l.foldl (fun acc o => if hasT o then acc ++ [o] else acc) acc =
        acc ++ l.filter hasT := by
    intro l
    induction l with
    | nil => intro acc; simp
    | cons x xs ih =>
      intro acc
      rw [List.foldl_cons]
      by_cases h : hasT x
      · rw [if_pos h, ih, List.filter_cons_of_pos h, List.append_assoc,
          List.singleton_append]
      · rw [if_neg h, ih,
          List.filter_cons_of_neg (by simpa using h)]
  rw [collectInterfaces, key, List.nil_append]

theorem mem_collectInterfaces {hasT : α → Bool} {l : List α} {x : α} :
    x ∈ collectInterfaces hasT l ↔ x ∈ l ∧ hasT x = true := by
  rw [collectInterfaces_eq_filter, List.mem_filter]

/-- The iteration of a list by any of the `ForEach` loops visits the
whole list when no element triggers cancellation, and otherwise exactly
the elements up to and including the first cancelling one. -/
theorem visited_eq_cancelIdx (f : α → EPredicateResult) (l : List α) :
    visited f l =
      match cancelIdx f l with
      | none => l
      | some k => l.take (k + 1) := by
  induction l with
  | nil => rfl
  | cons x xs ih =>
    by_cases hc : f x = EPredicateResult.CancellationRequested
    · rw [visited, if_pos hc, cancelIdx, if_pos hc]
      rfl
    · rw [visited, if_neg hc, cancelIdx, if_neg hc, ih]
      cases hx : cancelIdx f xs with
      | none => rfl
      | some k => rfl

theorem drain_remove_step (g : Nat) (h : g + 1 < UINT_SIZE) :
    (DObjectRegistry.mk [0] [] [0] g : DObjectRegistry Nat).drain =
      DObjectRegistry.mk [] [] [] (g + 1) := by
  rw [drain_eq]
  have h1 : drainFold
      (DObjectRegistry.mk [0] [] [0] g : DObjectRegistry Nat) =
      ([], true) := rfl
  rw [h1]
  simp [Nat.mod_eq_of_lt h]

theorem drain_add_step (g : Nat) (h : g + 1 < UINT_SIZE) :
    (DObjectRegistry.mk [] [0] [] g : DObjectRegistry Nat).drain =
      DObjectRegistry.mk [0] [] [] (g + 1) := by
  rw [drain_eq]
  have h1 : drainFold
      (DObjectRegistry.mk [] [0] [] g : DObjectRegistry Nat) =
      ([0], true) := rfl
  rw [h1]
  simp [Nat.mod_eq_of_lt h]

theorem foldl_rampBlock (g : Nat) (h : g + 2 < UINT_SIZE) :
    List.foldl applyOp (DObjectRegistry.mk [0] [] [] g) rampBlock =
      DObjectRegistry.mk [0] [] [] (g + 2) := by
  rw [rampBlock, List.foldl_cons, List.foldl_cons, List.foldl_cons,
    List.foldl_cons, List.foldl_nil]
  have s1 : applyOp (DObjectRegistry.mk [0] [] [] g)
      (RegistryOp.remove 0 none) = DObjectRegistry.mk [0] [] [0] g := rfl
  rw [s1]
  have s2 : applyOp (DObjectRegistry.mk [0] [] [0] g) RegistryOp.each =
      (DObjectRegistry.mk [0] [] [0] g : DObjectRegistry Nat).drain := rfl
  rw [s2, drain_remove_step g (by omega)]
  have s3 : applyOp (DObjectRegistry.mk [] [] [] (g + 1))
      (RegistryOp.add 0) = DObjectRegistry.mk [] [0] [] (g + 1) := rfl
  rw [s3]
  have s4 : applyOp (DObjectRegistry.mk [] [0] [] (g + 1))
      RegistryOp.each =
      (DObjectRegistry.mk [] [0] [] (g + 1) : DObjectRegistry Nat).drain :=
    rfl
  rw [s4, drain_add_step (g + 1) (by omega)]

theorem runOps_rampOps (k : Nat) (hk : 2 * k + 1 < UINT_SIZE) :
    runOps (rampOps k) = DObjectRegistry.mk [0] [] [] (2 * k + 1) := by
  induction k with
  | zero =>
    have h0 : rampOps 0 = [RegistryOp.add 0, RegistryOp.each] := by
      rw [rampOps]
      rfl
    rw [h0, runOps, List.foldl_cons, List.foldl_cons, List.foldl_nil]
    have s1 : applyOp (DObjectRegistry.new : DObjectRegistry Nat)
        (RegistryOp.add 0) = DObjectRegistry.mk [] [0] [] 0 := rfl
    have s2 : applyOp (DObjectRegistry.mk [] [0] [] 0) RegistryOp.each =
        (DObjectRegistry.mk [] [0] [] 0 : DObjectRegistry Nat).drain := rfl
    rw [s1, s2, drain_add_step 0 (by omega)]
  | succ k ih =>
    have hk' : 2 * k + 1 < UINT_SIZE := by omega
    have hramp : rampOps (k + 1) = rampOps k ++ rampBlock := by
      rw [rampOps, rampOps, List.replicate_succ', List.flatten_append,
        ← List.append_assoc]
      simp
    rw [hramp, runOps_append, ih hk', foldl_rampBlock _ (by omega)]
    have : 2 * k + 1 + 2 = 2 * (k + 1) + 1 := by omega
    rw [this]

theorem runOps_ramp_max :
    runOps (rampOps (2 ^ 31 - 1)) =
      DObjectRegistry.mk [0] [] [] UINT_MAX := by
  have h := runOps_rampOps (2 ^ 31 - 1) (by norm_num [UINT_SIZE])
  rw [h]
  norm_num [UINT_MAX]

theorem runOps_wrapOps :
    runOps wrapOps = DObjectRegistry.mk [] [] [] 0 := by
  rw [wrapOps, runOps_append, runOps_ramp_max, List.foldl_cons,
    List.foldl_cons, List.foldl_nil]
  have s1 : applyOp (DObjectRegistry.mk [0] [] [] UINT_MAX)
      (RegistryOp.remove 0 none) =
      DObjectRegistry.mk [0] [] [0] UINT_MAX := rfl
  have s2 : applyOp (DObjectRegistry.mk [0] [] [0] UINT_MAX)
      RegistryOp.each =
      (DObjectRegistry.mk [0] [] [0] UINT_MAX :
        DObjectRegistry Nat).drain := rfl
  rw [s1, s2, drain_eq]
  have h1 : drainFold
      (DObjectRegistry.mk [0] [] [0] UINT_MAX : DObjectRegistry Nat) =
      ([], true) := rfl
  rw [h1]
  norm_num [UINT_MAX, UINT_SIZE]

theorem drain_of_empty {s : DObjectRegistry α}
    (ha : s.m_objectsToAdd = []) (hr : s.m_objectsToRemove = []) :
    s.drain = s := by
  rw [DObjectRegistry.drain, if_neg]
  push_neg
  rw [ha, hr]
  exact ⟨rfl, rfl⟩

theorem runOps_snoc_each (ops : List (RegistryOp α)) :
    runOps (ops ++ [RegistryOp.each]) = (runOps ops).drain := by
  rw [runOps_append, List.foldl_cons, List.foldl_nil]
  rfl

theorem viewForEach_visited (hasT : α → Bool) (s : DObjectRegistry α)
    (v : DInterfaceCollection α) (f : α → EPredicateResult) :
    (DInterfaceCollection.ForEach hasT s v f).2.2 =
      visited f
        (DInterfaceCollection.ForEach hasT s v f).2.1.m_objects := by
  rw [DInterfaceCollection.ForEach]
  by_cases h : v.m_generationId ≠ s.m_generationId
  · rw [if_pos h]
  · rw [if_neg h]

/-- C9: `RequestAdd(object)` only appends the object to the pending-add
queue: it leaves the materialized set, the pending-remove queue, and the
generation counter unchanged, for every registry state and every
object. -/
theorem C9_requestAdd_frame (s : DObjectRegistry α) (x : α) :
    (s.RequestAddObject x).m_objects = s.m_objects ∧
    (s.RequestAddObject x).m_objectsToRemove = s.m_objectsToRemove ∧
    (s.RequestAddObject x).m_generationId = s.m_generationId ∧
    (s.RequestAddObject x).m_objectsToAdd = s.m_objectsToAdd ++ [x] :=
  ⟨rfl, rfl, rfl, rfl⟩

/-- C10: every registry `ForEach` leaves both pending queues empty on
return; entries that caused no structural change are consumed, not
retried: a second drain right after is the identity. -/
theorem C10_forEach_clears_queues (s : DObjectRegistry α)
    (f : α → EPredicateResult) :
    (s.ForEach f).1.m_objectsToAdd = [] ∧
    (s.ForEach f).1.m_objectsToRemove = [] ∧
    (s.ForEach f).1.drain = (s.ForEach f).1 := by
  refine ⟨drain_toAdd s, drain_toRemove s, ?_⟩
  exact drain_of_empty (drain_toAdd s) (drain_toRemove s)

/-- C8: the three capability-query calling conventions agree over the
same resolution `QueryInterfaceByTypeId`: the template form is
non-absent iff the runtime form is, iff the COM-like boolean form
returns `true`; the COM-like form writes exactly the resolved pointer
through its output parameter; and both `HasInterface` forms answer
`true` exactly when the resolved pointer is non-absent. -/
theorem C8_query_conventions_agree (o : DQueryInterface) (t : TypeId) :
    ((o.QueryInterfaceTemplate t).isSome = true ↔
      (o.QueryInterfaceRuntime t).isSome = true) ∧
    ((o.QueryInterfaceRuntime t).isSome = true ↔
      (o.QueryInterfaceCom t).2 = true) ∧
    ((o.QueryInterfaceCom t).1 = o.QueryInterfaceRuntime t) ∧
    (o.HasInterfaceTemplate t = true ↔
      (o.QueryInterfaceTemplate t).isSome = true) ∧
    (o.HasInterfaceRuntime t = true ↔
      (o.QueryInterfaceRuntime t).isSome = true) :=
  ⟨Iff.rfl, Iff.rfl, rfl, Iff.rfl, Iff.rfl⟩

/-- C5: within one drain all pending adds are applied to the
materialized set before any pending remove (the removal loop runs on
the output of the addition loop); consequently an object sitting in
both queues at drain time — in particular a previously-absent one — is
absent from the materialized set after that single drain. -/
theorem C5_adds_before_removes (s : DObjectRegistry α) :
    (s.drain.m_objects =
      (s.m_objectsToRemove.foldl drainRemovesStep
        (s.m_objectsToAdd.foldl drainAddsStep (s.m_objects, false))).1) ∧
    (∀ x : α, s.m_objects.Nodup → x ∉ s.m_objects →
      x ∈ s.m_objectsToAdd → x ∈ s.m_objectsToRemove →
      x ∉ s.drain.m_objects) := by
  constructor
  · rw [drain_objects, drainFold]
  · intro x hnd _hxo _hxa hxr
    rw [drain_objects, drainFold]
    exact removesFold_not_mem _ _ (addsFold_nodup _ _ hnd) hxr

theorem C5_witness :
    (0 : Nat) ∉
      (DObjectRegistry.mk [] [0] [0] 7 : DObjectRegistry Nat).drain.m_objects :=
  (C5_adds_before_removes _).2 0 (by decide) (by decide) (by decide)
    (by decide)

/-- C4: a `RequestRemove` whose veto predicate answers
`CancellationRequested` is dropped entirely — the registry state is
unchanged, nothing is enqueued — so an object present in the
materialized set (and not already pending removal) is still present
after the next drain, and appears in any view cache rebuilt from it
whenever it carries the view's capability. -/
theorem C4_veto_keeps_object (s : DObjectRegistry α) (x : α)
    (p : α → EPredicateResult) (hasT : α → Bool)
    (hc : p x = EPredicateResult.CancellationRequested) :
    s.RequestRemoveObject x (some p) = s ∧
    (x ∈ s.m_objects → x ∉ s.m_objectsToRemove →
      x ∈ (s.RequestRemoveObject x (some p)).drain.m_objects ∧
      (hasT x = true →
        x ∈ collectInterfaces hasT
          (s.RequestRemoveObject x (some p)).drain.m_objects)) := by
  have he : s.RequestRemoveObject x (some p) = s := by
    show (if p x = EPredicateResult.CancellationRequested then s
      else { s with m_objectsToRemove := s.m_objectsToRemove ++ [x] }) = s
    rw [if_pos hc]
  refine ⟨he, fun hmem hnr => ?_⟩
  rw [he]
  have hd : x ∈ s.drain.m_objects := mem_drain_of_mem_objects hmem hnr
  exact ⟨hd, fun hT => mem_collectInterfaces.mpr ⟨hd, hT⟩⟩

theorem C4_witness :
    ((DObjectRegistry.mk [0] [] [] 3 : DObjectRegistry Nat).RequestRemoveObject
        0 (some fun _ => EPredicateResult.CancellationRequested) =
      DObjectRegistry.mk [0] [] [] 3) ∧
    (0 : Nat) ∈
      ((DObjectRegistry.mk [0] [] [] 3 :
        DObjectRegistry Nat).RequestRemoveObject 0
        (some fun _ => EPredicateResult.CancellationRequested)).drain.m_objects := by
  have h := C4_veto_keeps_object
    (DObjectRegistry.mk [0] [] [] 3 : DObjectRegistry Nat) 0
    (fun _ => EPredicateResult.CancellationRequested) (fun _ => true) rfl
  exact ⟨h.1, (h.2 (by decide) (by decide)).1⟩

/-- C3: requesting add of the same object twice before a drain and then
draining once yields exactly one occurrence of it in the materialized
set, for every reachable starting state with no removal of that object
pending; and, in general, no object reference ever appears twice in the
materialized set of a reachable state. -/
theorem C3_dedup_and_nodup :
    (∀ (ops : List (RegistryOp α)) (x : α),
      x ∉ (runOps ops).m_objectsToRemove →
      ((((runOps ops).RequestAddObject x).RequestAddObject
          x).drain.m_objects).count x = 1) ∧
    (∀ ops : List (RegistryOp α), (runOps ops).m_objects.Nodup) := by
  have hnd : ∀ ops : List (RegistryOp α), (runOps ops).m_objects.Nodup :=
    fun ops => nodup_runOps ops
  refine ⟨fun ops x hnr => ?_, hnd⟩
  have hmem : x ∈
      (((runOps ops).RequestAddObject x).RequestAddObject
        x).drain.m_objects := by
    apply mem_drain_of_mem_toAdd
    · exact List.mem_append_right _ (List.mem_singleton_self x)
    · exact hnr
  have hnd2 : (((runOps ops).RequestAddObject x).RequestAddObject
      x).drain.m_objects.Nodup :=
    nodup_drain _ (hnd ops)
  exact List.count_eq_one_of_mem hnd2 hmem

theorem C3_witness :
    ((((runOps ([] : List (RegistryOp Nat))).RequestAddObject
        0).RequestAddObject 0).drain.m_objects).count 0 = 1 :=
  C3_dedup_and_nodup.1 [] 0 (by decide)

/-- C1: for every registry state reached by a sequence of requests
followed by a drain, a stale capability view, once rebuilt by its
`ForEach`, caches exactly the objects of the materialized set that
carry the capability: membership in the rebuilt cache is equivalent to
membership in the registry plus `HasInterface<T>()`. -/
theorem C1_view_membership_exact (ops : List (RegistryOp α))
    (hasT : α → Bool) (f : α → EPredicateResult)
    (v : DInterfaceCollection α) (x : α)
    (hstale : v.m_generationId ≠
      (runOps (ops ++ [RegistryOp.each])).m_generationId) :
    (x ∈ (DInterfaceCollection.ForEach hasT
        (runOps (ops ++ [RegistryOp.each])) v f).2.1.m_objects ↔
      x ∈ (runOps (ops ++ [RegistryOp.each])).m_objects ∧
        hasT x = true) := by
  set s := runOps (ops ++ [RegistryOp.each]) with hs
  have ha : s.m_objectsToAdd = [] := by
    rw [hs, runOps_snoc_each]
    exact drain_toAdd _
  have hr : s.m_objectsToRemove = [] := by
    rw [hs, runOps_snoc_each]
    exact drain_toRemove _
  have hdd : s.drain = s := drain_of_empty ha hr
  rw [DInterfaceCollection.ForEach, if_pos hstale]
  show x ∈ collectInterfaces hasT s.drain.m_objects ↔
    x ∈ s.m_objects ∧ hasT x = true
  rw [hdd]
  exact mem_collectInterfaces

theorem C1_witness :
    ((0 : Nat) ∈ (DInterfaceCollection.ForEach (fun n => decide (n = 0))
        (runOps ([RegistryOp.add 0] ++ [RegistryOp.each]))
        DObjectRegistry.CreateInterfaceCollection
        (fun _ => EPredicateResult.Ok)).2.1.m_objects ↔
      (0 : Nat) ∈
          (runOps ([RegistryOp.add 0] ++ [RegistryOp.each])).m_objects ∧
        (fun n : Nat => decide (n = 0)) 0 = true) :=
  C1_view_membership_exact [RegistryOp.add 0] _ _ _ 0 (by decide)

/-- C2 (amended): per drain, the generation counter advances by exactly
one modulo `2^32` when the drain performed at least one structural
change (`changed` set by the loops), and is untouched otherwise — even
with non-empty queues the untouched case also leaves the materialized
set unchanged; consequently, as long as the pre-drain generation is
below `UINT_MAX`, the generation never decreases across a drain. -/
theorem C2_generation_per_drain (s : DObjectRegistry α) :
    (drainChanged s = true →
      s.drain.m_generationId = (s.m_generationId + 1) % UINT_SIZE) ∧
    (drainChanged s = false →
      s.drain.m_generationId = s.m_generationId ∧
      s.drain.m_objects = s.m_objects) ∧
    (s.m_generationId < UINT_MAX →
      s.m_generationId ≤ s.drain.m_generationId) := by
  have hgen := drain_generation s
  refine ⟨fun hc => ?_, fun hc => ?_, fun hlt => ?_⟩
  · rw [hgen, if_pos hc]
  · constructor
    · rw [hgen, if_neg (by simp [hc])]
    · have hflag : (s.m_objectsToRemove.foldl drainRemovesStep
          (s.m_objectsToAdd.foldl drainAddsStep
            (s.m_objects, false))).2 = false := by
        rw [drainChanged, drainFold] at hc
        exact hc
      have h2 := removesFold_of_flag_false hflag
      have h3 := addsFold_of_flag_false h2.2
      rw [drain_objects, drainFold, h2.1, h3.1]
  · cases hch : drainChanged s with
    | true =>
      rw [hgen, if_pos hch]
      have hSZ : UINT_MAX + 1 = UINT_SIZE := by
        norm_num [UINT_MAX, UINT_SIZE]
      have h1 : s.m_generationId + 1 < UINT_SIZE := by omega
      rw [Nat.mod_eq_of_lt h1]
      omega
    | false =>
      rw [hgen, if_neg (by simp [hch])]

theorem C2_witness :
    ((DObjectRegistry.mk [] [2] [] 5 :
        DObjectRegistry Nat).drain.m_generationId = (5 + 1) % UINT_SIZE) ∧
    ((DObjectRegistry.mk [0] [] [] 5 :
        DObjectRegistry Nat).drain.m_generationId = 5 ∧
      (DObjectRegistry.mk [0] [] [] 5 :
        DObjectRegistry Nat).drain.m_objects = [0]) ∧
    5 ≤ (DObjectRegistry.mk [] [2] [] 5 :
        DObjectRegistry Nat).drain.m_generationId :=
  ⟨(C2_generation_per_drain
      (DObjectRegistry.mk [] [2] [] 5 : DObjectRegistry Nat)).1
      (by decide),
    (C2_generation_per_drain
      (DObjectRegistry.mk [0] [] [] 5 : DObjectRegistry Nat)).2.1
      (by decide),
    (C2_generation_per_drain
      (DObjectRegistry.mk [] [2] [] 5 : DObjectRegistry Nat)).2.2
      (by decide)⟩

/-- C2 counterexample: `wrapOps` extends a reachable trace whose final
generation is `UINT_MAX` by one more structural drain, after which the
generation is `0`: the generation counter does decrease across a
sequence of operations (the modulo-`2^32` wraparound). -/
theorem C2_counterexample :
    wrapOps = rampOps (2 ^ 31 - 1) ++
        [RegistryOp.remove 0 none, RegistryOp.each] ∧
    (runOps wrapOps).m_generationId <
      (runOps (rampOps (2 ^ 31 - 1))).m_generationId := by
  refine ⟨rfl, ?_⟩
  rw [runOps_wrapOps, runOps_ramp_max]
  norm_num [UINT_MAX]

/-- C6: in each of the three enumeration entry points — registry
`ForEach`, view `ForEach` over object handles, and view `ForEach` over
capability references — if the caller's predicate answers
`CancellationRequested` at the `k`-th visited element of the underlying
sequence, the visited elements are exactly the first `k + 1`: nothing
after the cancelling element is visited. -/
theorem C6_cancellation_stops_iteration (s : DObjectRegistry α)
    (v : DInterfaceCollection α) (hasT : α → Bool) (getT : α → β)
    (f : α → EPredicateResult) (g : β → EPredicateResult) :
    ((s.ForEach f).2 =
      match cancelIdx f s.drain.m_objects with
      | none => s.drain.m_objects
      | some k => s.drain.m_objects.take (k + 1)) ∧
    ((DInterfaceCollection.ForEach hasT s v f).2.2 =
      match cancelIdx f
          (DInterfaceCollection.ForEach hasT s v f).2.1.m_objects with
      | none => (DInterfaceCollection.ForEach hasT s v f).2.1.m_objects
      | some k =>
        ((DInterfaceCollection.ForEach hasT s v f).2.1.m_objects).take
          (k + 1)) ∧
    ((DInterfaceCollection.ForEachInterface hasT getT s v g).2.2 =
      match cancelIdx (fun o => g (getT o))
          (DInterfaceCollection.ForEachInterface hasT getT s v
            g).2.1.m_objects with
      | none =>
        (DInterfaceCollection.ForEachInterface hasT getT s v
          g).2.1.m_objects
      | some k =>
        ((DInterfaceCollection.ForEachInterface hasT getT s v
          g).2.1.m_objects).take (k + 1)) := by
  refine ⟨?_, ?_, ?_⟩
  · show visited f s.drain.m_objects = _
    exact visited_eq_cancelIdx f s.drain.m_objects
  · rw [viewForEach_visited]
    exact visited_eq_cancelIdx f _
  · rw [DInterfaceCollection.ForEachInterface, viewForEach_visited]
    exact visited_eq_cancelIdx _ _

/-- C7 (amended): a newly created view carries the sentinel generation
`UINT_MAX`, and its first `ForEach` rebuilds the cache whenever the
registry's generation differs from `UINT_MAX` — which holds for every
registry generation reachable with fewer than `2^32 - 1` structural
drains, but not for the (astronomically distant yet reachable)
generation `UINT_MAX` itself, where the sentinel collides and the first
`ForEach` skips the rebuild. -/
theorem C7_initial_view_stale (s : DObjectRegistry α) (hasT : α → Bool)
    (f : α → EPredicateResult) (hg : s.m_generationId ≠ UINT_MAX) :
    (DObjectRegistry.CreateInterfaceCollection :
      DInterfaceCollection α).m_generationId = UINT_MAX ∧
    DInterfaceCollection.ForEach hasT s
        DObjectRegistry.CreateInterfaceCollection f =
      (s.drain,
        { m_objects := collectInterfaces hasT s.drain.m_objects,
          m_generationId := s.drain.m_generationId },
        visited f (collectInterfaces hasT s.drain.m_objects)) := by
  refine ⟨rfl, ?_⟩
  rw [DInterfaceCollection.ForEach, if_pos]
  exact fun he => hg ((congrArg id he).symm)

theorem C7_witness :
    DInterfaceCollection.ForEach (fun _ => true)
        (DObjectRegistry.mk [0] [] [] 1 : DObjectRegistry Nat)
        DObjectRegistry.CreateInterfaceCollection
        (fun _ => EPredicateResult.Ok) =
      ((DObjectRegistry.mk [0] [] [] 1 : DObjectRegistry Nat).drain,
        { m_objects := collectInterfaces (fun _ => true)
            (DObjectRegistry.mk [0] [] [] 1 :
              DObjectRegistry Nat).drain.m_objects,
          m_generationId := (DObjectRegistry.mk [0] [] [] 1 :
            DObjectRegistry Nat).drain.m_generationId },
        visited (fun _ => EPredicateResult.Ok)
          (collectInterfaces (fun _ => true)
            (DObjectRegistry.mk [0] [] [] 1 :
              DObjectRegistry Nat).drain.m_objects)) :=
  (C7_initial_view_stale _ _ _ (by decide)).2

/-- C7 counterexample: a reachable registry state (after `rampOps`,
i.e. `2^32 - 1` structural drains) whose generation equals the fresh
view's sentinel `UINT_MAX`; the first `ForEach` of a newly created view
on it does not rebuild — it returns the untouched empty cache and
visits nothing — even though the registry holds object `0` and the
capability test accepts it. -/
theorem C7_counterexample :
    (runOps (rampOps (2 ^ 31 - 1))).m_generationId =
      (DObjectRegistry.CreateInterfaceCollection :
        DInterfaceCollection Nat).m_generationId ∧
    (runOps (rampOps (2 ^ 31 - 1))).m_objects = [0] ∧
    DInterfaceCollection.ForEach (fun _ => true)
        (runOps (rampOps (2 ^ 31 - 1)))
        DObjectRegistry.CreateInterfaceCollection
        (fun _ => EPredicateResult.Ok) =
      (runOps (rampOps (2 ^ 31 - 1)),
        DObjectRegistry.CreateInterfaceCollection, []) := by
  rw [runOps_ramp_max]
  refine ⟨rfl, rfl, ?_⟩
  rw [DInterfaceCollection.ForEach, if_neg]
  · rfl
  · intro hne
    exact hne rfl
